import Mathlib

/-!
Verification of the restaurant-booking app's core logic: the address
normalizer (`formatAddress` in AddRestaurantScreen.js), the order cart
(`addToCart` / `removeFromCart` / totals in RestaurantDetailScreen.js),
the restaurant-type registry (restaurantTypes.js), and the submission
location validation (`validateForm` in Add/EditRestaurantScreen.js).

JavaScript strings are modelled as `List Char` or `String`; the specific
regex replaces used by the source are modelled character-for-character
with JavaScript `String.replace` semantics (global replace scans left to
right and resumes after each match; the anchored boundary patterns take
the leftmost match).
-/

/-- ASCII whitespace, the fragment of the JS `\s` class and of
`String.prototype.trim` that can occur in this app's data. -/
def isSpaceChar (c : Char) : Bool :=
  c = ' ' || c = '\t' || c = '\n' || c = '\r'

/-- `[A-Z0-9]`, the character class of the plus-code regex. -/
def isUpperDigit (c : Char) : Bool :=
  ('A' ≤ c && c ≤ 'Z') || ('0' ≤ c && c ≤ '9')

/-- ASCII lowercasing of a character list, modelling
`String.prototype.toLowerCase` on the ASCII data that appears in the
registry (`Char.toLower` lowercases exactly the ASCII range). -/
def lowerStr (s : List Char) : List Char := s.map Char.toLower

/-- `String.prototype.trim` (ASCII fragment). -/
def jsTrim (s : List Char) : List Char :=
  ((s.dropWhile isSpaceChar).reverse.dropWhile isSpaceChar).reverse

/-- Length of the maximal run of characters satisfying `p` at the head. -/
def runLen (p : Char → Bool) : List Char → Nat
  | [] => 0
  | c :: cs => if p c then runLen p cs + 1 else 0

/-- Does `pre` occur at the head of `s`? -/
def isPrefixList : List Char → List Char → Bool
  | [], _ => true
  | _ :: _, [] => false
  | a :: as, b :: bs => a = b && isPrefixList as bs

/-- `hay.includes(needle)` for JS strings. -/
def containsSub (needle : List Char) : List Char → Bool
  | [] => isPrefixList needle []
  | c :: cs => isPrefixList needle (c :: cs) || containsSub needle cs

/-- Number of characters consumed by a match of the regex
`[A-Z0-9]{4}\+[A-Z0-9]{2,}\s*,?\s*` anchored at the head of `s`
(`none` if there is no match there).  All quantifiers are greedy; since
the character classes involved are pairwise disjoint, greedy matching
needs no backtracking. -/
def matchPlusLen (s : List Char) : Option Nat :=
  match s with
  | c1 :: c2 :: c3 :: c4 :: '+' :: rest =>
    if isUpperDigit c1 && isUpperDigit c2 && isUpperDigit c3 && isUpperDigit c4 then
      let k := runLen isUpperDigit rest
      if k < 2 then none
      else
        let r1 := rest.drop k
        let sp1 := runLen isSpaceChar r1
        match r1.drop sp1 with
        | ',' :: r3 => some (5 + k + sp1 + 1 + runLen isSpaceChar r3)
        | _ => some (5 + k + sp1)
    else none
  | _ => none

/-- `s.replace(/[A-Z0-9]{4}\+[A-Z0-9]{2,}\s*,?\s*/g, '')`, fuelled scan
(each step consumes at least one character, so fuel `s.length` is enough). -/
def stripPlusAux : Nat → List Char → List Char
  | 0, s => s
  | _ + 1, [] => []
  | n + 1, c :: cs =>
    match matchPlusLen (c :: cs) with
    | some k => stripPlusAux n ((c :: cs).drop k)
    | none => c :: stripPlusAux n cs

def stripPlusCodes (s : List Char) : List Char := stripPlusAux s.length s

/-- Number of characters consumed by a match of `,\s*,` anchored at the
head of `s` (`none` if no match). -/
def matchCommaPairLen (s : List Char) : Option Nat :=
  match s with
  | ',' :: rest =>
    let k := runLen isSpaceChar rest
    match rest.drop k with
    | ',' :: _ => some (1 + k + 1)
    | _ => none
  | _ => none

/-- `s.replace(/,\s*,/g, ',')`; the replacement comma is emitted and the
scan resumes after the match, so the replacement is never rescanned. -/
def collapseAux : Nat → List Char → List Char
  | 0, s => s
  | _ + 1, [] => []
  | n + 1, c :: cs =>
    match matchCommaPairLen (c :: cs) with
    | some k => ',' :: collapseAux n ((c :: cs).drop k)
    | none => c :: collapseAux n cs

def collapseCommas (s : List Char) : List Char := collapseAux s.length s

/-- `s.replace(/^\s*,\s*/, '')`: drop leading whitespace, one comma, and
the whitespace after it — only when that comma is present. -/
def stripLeadingComma (s : List Char) : List Char :=
  match s.dropWhile isSpaceChar with
  | ',' :: r => r.dropWhile isSpaceChar
  | _ => s

/-- `s.replace(/\s*,\s*$/, '')`: the leftmost match of this end-anchored
pattern is the longest suffix of shape `\s* ',' \s*`, i.e. the trailing
whitespace, the comma before it, and the whitespace run before that comma. -/
def stripTrailingComma (s : List Char) : List Char :=
  match s.reverse.dropWhile isSpaceChar with
  | ',' :: r => (r.dropWhile isSpaceChar).reverse
  | _ => s

/-- The "final cleanup" applied unconditionally by `formatAddress`
(AddRestaurantScreen.js lines 150–155): collapse `,\s*,`, strip one
leading and one trailing comma with surrounding whitespace, trim. -/
def finalClean (s : List Char) : List Char :=
  jsTrim (stripTrailingComma (stripLeadingComma (collapseCommas s)))

/-- The fallback cleaning of `formattedAddress` (lines 136–143): strip
plus codes, then the same comma cleanup as `finalClean`. -/
def cleanFallback (s : List Char) : List Char :=
  finalClean (stripPlusCodes s)

/-- `parts.join(', ')`. -/
def joinCommaSpace : List (List Char) → List Char
  | [] => []
  | [p] => p
  | p :: ps => p ++ ',' :: ' ' :: joinCommaSpace ps

/-- Input of `formatAddress`: the destructured fields of the geocoding
result (AddRestaurantScreen.js lines 75–85); every field is optional. -/
structure GeocodeData where
  name : Option String := none
  streetNumber : Option String := none
  street : Option String := none
  subregion : Option String := none
  city : Option String := none
  region : Option String := none
  country : Option String := none
  formattedAddress : Option String := none
  district : Option String := none
deriving Repr, DecidableEq

/-- JS truthiness of an optional string field (`undefined` and `''` are
falsy). -/
def truthy : Option String → Bool
  | none => false
  | some s => s != ""

/-- Character list of an optional field (only consulted when truthy). -/
def sval (o : Option String) : List Char := (o.getD "").toList

/-- JS strict inequality `x !== y` between two possibly-absent strings
(`undefined !== undefined` is false; a string never equals `undefined`). -/
def jsNeOpt : Option String → Option String → Bool
  | some a, some b => a != b
  | none, none => false
  | _, _ => true

/-- Step 1 (lines 91–94): append `name` if it is truthy, does not
`include('+')`, and differs from `city` and `subregion`. -/
def step1 (a : GeocodeData) : List (List Char) :=
  if truthy a.name && !((sval a.name).contains '+')
      && jsNeOpt a.name a.city && jsNeOpt a.name a.subregion then
    [sval a.name]
  else []

/-- Step 2 (lines 97–101): street number + street, or street alone when
it differs from `name`. -/
def step2 (a : GeocodeData) : List (List Char) :=
  if truthy a.streetNumber && truthy a.street then
    [sval a.streetNumber ++ ' ' :: sval a.street]
  else if truthy a.street && jsNeOpt a.street a.name then
    [sval a.street]
  else []

/-- Step 3 (lines 104–106): subregion when it differs from city and region. -/
def step3 (a : GeocodeData) : List (List Char) :=
  if truthy a.subregion && jsNeOpt a.subregion a.city && jsNeOpt a.subregion a.region then
    [sval a.subregion]
  else []

/-- Step 4 (lines 109–111): district when it differs from city and subregion. -/
def step4 (a : GeocodeData) : List (List Char) :=
  if truthy a.district && jsNeOpt a.district a.city && jsNeOpt a.district a.subregion then
    [sval a.district]
  else []

/-- Step 5 (lines 114–116): city, unconditionally when truthy. -/
def step5 (a : GeocodeData) : List (List Char) :=
  if truthy a.city then [sval a.city] else []

/-- Step 6 (lines 119–121): region when it differs from city and district. -/
def step6 (a : GeocodeData) : List (List Char) :=
  if truthy a.region && jsNeOpt a.region a.city && jsNeOpt a.region a.district then
    [sval a.region]
  else []

/-- Step 7 (lines 124–126): country, unconditionally when truthy. -/
def step7 (a : GeocodeData) : List (List Char) :=
  if truthy a.country then [sval a.country] else []

/-- The ordered parts accumulated by steps 1–7 of `formatAddress`. -/
def addressParts (a : GeocodeData) : List (List Char) :=
  step1 a ++ step2 a ++ step3 a ++ step4 a ++ step5 a ++ step6 a ++ step7 a

/-- `formatAddress` (AddRestaurantScreen.js lines 70–160) on a present
geocode result: join the parts; if fewer than 3 parts and a truthy
`formattedAddress` exists, prefer its cleaned form when strictly longer;
apply the final cleanup; fall back to the sentinel when empty. -/
def formatAddress (a : GeocodeData) : String :=
  let constructed := joinCommaSpace (addressParts a)
  let constructed2 :=
    if (addressParts a).length < 3 && truthy a.formattedAddress then
      let cleaned := cleanFallback (sval a.formattedAddress)
      if constructed.length < cleaned.length then cleaned else constructed
    else constructed
  let fin := finalClean constructed2
  if fin = [] then "Location detected" else fin.asString

/-! ## Order cart (RestaurantDetailScreen.js) -/

/-- A menu item as consumed by the cart: id, price, optional calories.
JS numbers are modelled at integer precision, which suffices for the
sum/ordering claims below. -/
structure MenuItem where
  id : String
  price : Int
  calories : Option Int
deriving Repr, DecidableEq

/-- A cart line (lines 40, 36): the spread menu item plus a `quantity`. -/
structure CartLine where
  id : String
  price : Int
  calories : Option Int
  quantity : Int
deriving Repr, DecidableEq

/-- `addToCart` (lines 30–42): increment the quantity of the existing
line for `item.id`, else append a fresh line with quantity 1. -/
def addToCart (cart : List CartLine) (item : MenuItem) : List CartLine :=
  match cart.find? (fun l => l.id == item.id) with
  | some _ =>
    cart.map (fun l =>
      if l.id == item.id then { l with quantity := l.quantity + 1 } else l)
  | none =>
    cart ++ [{ id := item.id, price := item.price, calories := item.calories, quantity := 1 }]

/-- `removeFromCart` (lines 44–56).  When no line has `itemId`,
`prev.find(...)` is `undefined` and the access `existingItem.quantity`
throws a TypeError; the thrown case is modelled as `none`.  Otherwise the
line is dropped when its quantity is 1, else its quantity is decremented. -/
def removeFromCart (cart : List CartLine) (itemId : String) : Option (List CartLine) :=
  match cart.find? (fun l => l.id == itemId) with
  | none => none
  | some l =>
    if l.quantity = 1 then
      some (cart.filter (fun c => !(c.id == itemId)))
    else
      some (cart.map (fun c =>
        if c.id == itemId then { c with quantity := c.quantity - 1 } else c))

/-- `getTotalPrice` (lines 58–60): `cart.reduce((t, i) => t + i.price * i.quantity, 0)`. -/
def getTotalPrice (cart : List CartLine) : Int :=
  cart.foldl (fun t l => t + l.price * l.quantity) 0

/-- `getTotalCalories` (lines 62–64): `(item.calories || 0) * quantity`. -/
def getTotalCalories (cart : List CartLine) : Int :=
  cart.foldl (fun t l => t + l.calories.getD 0 * l.quantity) 0

/-- Cart states reachable from the empty cart by `addToCart` steps and by
`removeFromCart` steps that do not throw. -/
inductive CartReach : List CartLine → Prop where
  | empty : CartReach []
  | add (c : List CartLine) (item : MenuItem) : CartReach c → CartReach (addToCart c item)
  | remove (c c2 : List CartLine) (iid : String) :
      CartReach c → removeFromCart c iid = some c2 → CartReach c2

/-! ## Restaurant type registry (utils/restaurantTypes.js) -/

/-- One entry of the static registry (lines 3–15). -/
structure RestaurantType where
  name : String
  color : String
  description : String
deriving Repr, DecidableEq

/-- `RESTAURANT_TYPES` (utils/restaurantTypes.js lines 3–15). -/
def RESTAURANT_TYPES : List RestaurantType :=
  [⟨"Go Green", "#4CAF50", "Eco-friendly and sustainable dining"⟩,
   ⟨"Fine Dining", "#8E24AA", "Upscale restaurants with premium service"⟩,
   ⟨"Casual Dining", "#FF7043", "Relaxed atmosphere with table service"⟩,
   ⟨"Cafe", "#795548", "Coffee shops and light meals"⟩,
   ⟨"Fast Food", "#F44336", "Quick service restaurants"⟩,
   ⟨"Buffet", "#FF9800", "Self-service dining with variety"⟩,
   ⟨"Food Truck", "#2196F3", "Mobile food vendors"⟩,
   ⟨"Bakery", "#FFEB3B", "Fresh baked goods and pastries"⟩,
   ⟨"Dessert Shop", "#E91E63", "Sweets, ice cream, and desserts"⟩,
   ⟨"Bar", "#9C27B0", "Drinks and bar food"⟩,
   ⟨"Pub", "#607D8B", "Casual drinking establishment with food"⟩]

/-- `searchRestaurantTypes` (lines 180–190): falsy or all-whitespace
queries return the whole table; otherwise filter by case-insensitive
substring of the lowercased, trimmed query in name or description. -/
def searchRestaurantTypes (query : String) : List RestaurantType :=
  if query == "" || jsTrim query.toList == [] then
    RESTAURANT_TYPES
  else
    let searchTerm := jsTrim (lowerStr query.toList)
    RESTAURANT_TYPES.filter (fun t =>
      containsSub searchTerm (lowerStr t.name.toList) ||
      containsSub searchTerm (lowerStr t.description.toList))

/-- A restaurant as consumed by the grouping helper: only its name and
optional `type` field matter. -/
structure Restaurant where
  rname : String
  rtype : Option String
deriving Repr, DecidableEq

/-- `restaurant.type || 'Other'` (line 83): falsy (absent or empty) type
falls back to `"Other"`. -/
def typeKey (r : Restaurant) : String :=
  match r.rtype with
  | none => "Other"
  | some t => if t == "" then "Other" else t

/-- One step of the reduce in `groupRestaurantsByType` (lines 84–87):
create the bucket on first use (JS object keys keep insertion order),
then push the restaurant onto it. -/
def bucketPush (acc : List (String × List Restaurant)) (key : String) (r : Restaurant) :
    List (String × List Restaurant) :=
  if acc.any (fun p => p.1 == key) then
    acc.map (fun p => if p.1 == key then (p.1, p.2 ++ [r]) else p)
  else
    acc ++ [(key, [r])]

/-- `groupRestaurantsByType` (lines 81–90), the accumulating object
modelled as an insertion-ordered association list. -/
def groupRestaurantsByType (rs : List Restaurant) : List (String × List Restaurant) :=
  rs.foldl (fun acc r => bucketPush acc (typeKey r) r) []

/-- Reading a bucket of the grouping object (`[]` when the key is absent;
keys built by `bucketPush` are unique, so the first entry is the entry). -/
def bucketOf : List (String × List Restaurant) → String → List Restaurant
  | [], _ => []
  | p :: g, key => if p.1 == key then p.2 else bucketOf g key

/-! ## Submission location validation (AddRestaurantScreen.js lines
380–386, EditRestaurantScreen.js lines 193–200 — the two screens share
the same condition) -/

/-- JS falsiness of an optional number (`null`/`undefined` and `0` are
falsy). -/
def jsFalsyNum : Option Int → Bool
  | none => true
  | some x => x == 0

/-- The location clause of `validateForm`: the draft passes the location
check iff `!(!latitude || !longitude || latitude < -90 || latitude > 90
|| longitude < -180 || longitude > 180)`.  The `typeof` guards are
subsumed by the `Option Int` model. -/
def locationCheck (latitude longitude : Option Int) : Bool :=
  !(jsFalsyNum latitude || jsFalsyNum longitude ||
    decide (latitude.getD 0 < -90) || decide (90 < latitude.getD 0) ||
    decide (longitude.getD 0 < -180) || decide (180 < longitude.getD 0))

/-- `Modelled from the spec:` the plus-code pattern
`[A-Z0-9]{4}\+[A-Z0-9]{2,}` as a test on a whole string ("matches" in
the sense of `RegExp.prototype.test`: some substring matches).  The
source's step 1 does NOT use this pattern (it uses `name.includes('+')`);
this definition exists to compare the spec's wording with the code. -/
def specPlusCodeAt (s : List Char) : Bool :=
  match s with
  | c1 :: c2 :: c3 :: c4 :: '+' :: rest =>
    isUpperDigit c1 && isUpperDigit c2 && isUpperDigit c3 && isUpperDigit c4 &&
      decide (2 ≤ runLen isUpperDigit rest)
  | _ => false

/-- `Modelled from the spec:` whether some substring of `s` matches the
plus-code pattern. -/
def specPlusCodeTest : List Char → Bool
  | [] => false
  | c :: cs => specPlusCodeAt (c :: cs) || specPlusCodeTest cs

/-- `Modelled from the spec:` the claim's search predicate for C10 — the
raw (untrimmed) query occurs case-insensitively in name or description. -/
def specSearchMatches (query : String) (t : RestaurantType) : Bool :=
  containsSub (lowerStr query.toList) (lowerStr t.name.toList) ||
  containsSub (lowerStr query.toList) (lowerStr t.description.toList)

/-! ## Helper lemmas -/

theorem asString_ne_empty {l : List Char} (h : l ≠ []) : l.asString ≠ "" := by
  intro he
  exact h (by simpa [List.asString] using String.ext_iff.mp he)

theorem toNat_ofNat_valid {n : Nat} (h : n < 55296) : (Char.ofNat n).toNat = n := by
  have hv : n.isValidChar := Or.inl h
  rw [Char.ofNat, dif_pos hv]
  rfl

theorem isSpaceChar_toLower (c : Char) : isSpaceChar (Char.toLower c) = isSpaceChar c := by
  have hbig : ∀ d : Char, 32 < d.toNat → isSpaceChar d = false := by
    intro d hgt
    have h1 : d ≠ ' ' := by rintro rfl; exact absurd hgt (by decide)
    have h2 : d ≠ '\t' := by rintro rfl; exact absurd hgt (by decide)
    have h3 : d ≠ '\n' := by rintro rfl; exact absurd hgt (by decide)
    have h4 : d ≠ '\r' := by rintro rfl; exact absurd hgt (by decide)
    simp [isSpaceChar, h1, h2, h3, h4]
  have hlower : Char.toLower c =
      if c.toNat ≥ 65 ∧ c.toNat ≤ 90 then Char.ofNat (c.toNat + 32) else c := rfl
  rw [hlower]
  by_cases h : c.toNat ≥ 65 ∧ c.toNat ≤ 90
  · obtain ⟨h1, h2⟩ := h
    rw [if_pos ⟨h1, h2⟩]
    have ht : (Char.ofNat (c.toNat + 32)).toNat = c.toNat + 32 := toNat_ofNat_valid (by omega)
    rw [hbig _ (by omega : 32 < c.toNat), hbig _ (by rw [ht]; omega)]
  · rw [if_neg h]

theorem dropWhile_space_lower (l : List Char) :
    (l.map Char.toLower).dropWhile isSpaceChar = (l.dropWhile isSpaceChar).map Char.toLower := by
  rw [List.dropWhile_map]
  have hfun : (isSpaceChar ∘ Char.toLower) = isSpaceChar := funext isSpaceChar_toLower
  rw [hfun]

theorem jsTrim_lowerStr (s : List Char) : jsTrim (lowerStr s) = lowerStr (jsTrim s) := by
  unfold jsTrim lowerStr
  rw [dropWhile_space_lower, ← List.map_reverse, dropWhile_space_lower, ← List.map_reverse]

theorem foldl_add_eq (f : CartLine → Int) (c : List CartLine) : ∀ init : Int,
    c.foldl (fun t l => t + f l) init = init + (c.map f).sum := by
  induction c with
  | nil => intro init; simp
  | cons l ls ih => intro init; simp [ih, add_assoc]

/-- The cart invariant preserved by every reachable state: line ids are
pairwise distinct and every quantity is at least 1. -/
theorem cartInvariantAux {c : List CartLine} (h : CartReach c) :
    (c.map CartLine.id).Nodup ∧ ∀ l ∈ c, 1 ≤ l.quantity := by
  induction h with
  | empty => simp
  | add c item _ ih =>
    obtain ⟨hnd, hq⟩ := ih
    cases hfind : c.find? (fun l => l.id == item.id) with
    | none =>
      have hnotin : ∀ l ∈ c, ¬l.id = item.id := by
        intro l hl
        simpa using List.find?_eq_none.mp hfind l hl
      constructor
      · simp only [addToCart, hfind, List.map_append, List.map_cons, List.map_nil]
        rw [List.nodup_append]
        refine ⟨hnd, by simp, ?_⟩
        intro x hx
        simp only [List.mem_singleton]
        intro hxeq
        obtain ⟨l, hl, rfl⟩ := List.mem_map.mp hx
        exact hnotin l hl (by simpa using hxeq)
      · intro l hl
        simp only [addToCart, hfind] at hl
        rcases List.mem_append.mp hl with h1 | h1
        · exact hq l h1
        · simp only [List.mem_singleton] at h1
          subst h1
          simp
    | some l0 =>
      constructor
      · simp only [addToCart, hfind, List.map_map]
        have : ∀ l ∈ c,
            (CartLine.id ∘ fun l =>
              if l.id == item.id then { l with quantity := l.quantity + 1 } else l) l =
            CartLine.id l := by
          intro l _
          by_cases hli : l.id = item.id <;> simp [hli]
        rw [List.map_congr_left this]
        exact hnd
      · intro l' hl'
        simp only [addToCart, hfind] at hl'
        obtain ⟨l, hl, rfl⟩ := List.mem_map.mp hl'
        have := hq l hl
        by_cases hli : l.id = item.id <;> simp [hli] <;> omega
  | remove c c2 iid _ hrem ih =>
    obtain ⟨hnd, hq⟩ := ih
    cases hfind : c.find? (fun l => l.id == iid) with
    | none => simp [removeFromCart, hfind] at hrem
    | some l0 =>
      have hl0mem : l0 ∈ c := List.mem_of_find?_eq_some hfind
      have hl0id : l0.id = iid := by simpa using List.find?_some hfind
      simp only [removeFromCart, hfind] at hrem
      by_cases hq1 : l0.quantity = 1
      · rw [if_pos hq1] at hrem
        injection hrem with h2
        subst h2
        constructor
        · exact List.Nodup.sublist ((List.filter_sublist c).map CartLine.id) hnd
        · intro l hl
          exact hq l (List.mem_filter.mp hl).1
      · rw [if_neg hq1] at hrem
        injection hrem with h2
        subst h2
        constructor
        · rw [List.map_map]
          have : ∀ l ∈ c,
              (CartLine.id ∘ fun c' =>
                if c'.id == iid then { c' with quantity := c'.quantity - 1 } else c') l =
              CartLine.id l := by
            intro l _
            by_cases hli : l.id = iid <;> simp [hli]
          rw [List.map_congr_left this]
          exact hnd
        · intro l' hl'
          obtain ⟨l, hl, rfl⟩ := List.mem_map.mp hl'
          by_cases hli : l.id = iid
          · have hleq : l = l0 := by
              refine List.inj_on_of_nodup_map hnd hl hl0mem ?_
              rw [hl0id]
              exact hli
            have := hq l0 hl0mem
            subst hleq
            simp [hli]
            omega
          · simp [hli]
            exact hq l hl

theorem bucketOf_map_ne (acc : List (String × List Restaurant)) (k key : String)
    (r : Restaurant) (hk : ¬k = key) :
    bucketOf (acc.map (fun p => if p.1 == k then (p.1, p.2 ++ [r]) else p)) key =
      bucketOf acc key := by
  induction acc with
  | nil => rfl
  | cons p acc ih =>
    simp only [List.map_cons]
    by_cases hp : p.1 = k
    · rw [show (if p.1 == k then (p.1, p.2 ++ [r]) else p) = (p.1, p.2 ++ [r]) from by
        simp [hp]]
      have hpkey : ¬p.1 = key := fun hcontra => hk (hp ▸ hcontra)
      simp only [bucketOf]
      rw [if_neg (by simpa using hpkey), if_neg (by simpa using hpkey)]
      exact ih
    · rw [show (if p.1 == k then (p.1, p.2 ++ [r]) else p) = p from by simp [hp]]
      simp only [bucketOf]
      by_cases hpk : p.1 = key
      · rw [if_pos (by simpa using hpk), if_pos (by simpa using hpk)]
      · rw [if_neg (by simpa using hpk), if_neg (by simpa using hpk)]
        exact ih

theorem bucketOf_map_eq (acc : List (String × List Restaurant)) (k : String)
    (r : Restaurant) (hany : acc.any (fun p => p.1 == k) = true) :
    bucketOf (acc.map (fun p => if p.1 == k then (p.1, p.2 ++ [r]) else p)) k =
      bucketOf acc k ++ [r] := by
  induction acc with
  | nil => simp at hany
  | cons p acc ih =>
    simp only [List.map_cons]
    by_cases hp : p.1 = k
    · rw [show (if p.1 == k then (p.1, p.2 ++ [r]) else p) = (p.1, p.2 ++ [r]) from by
        simp [hp]]
      simp only [bucketOf]
      rw [if_pos (by simpa using hp), if_pos (by simpa using hp)]
    · rw [show (if p.1 == k then (p.1, p.2 ++ [r]) else p) = p from by simp [hp]]
      have hany2 : acc.any (fun p => p.1 == k) = true := by
        simpa [hp] using hany
      simp only [bucketOf]
      rw [if_neg (by simpa using hp), if_neg (by simpa using hp)]
      exact ih hany2

theorem bucketOf_append_new (acc : List (String × List Restaurant)) (k key : String)
    (r : Restaurant) (hany : acc.any (fun p => p.1 == k) = false) :
    bucketOf (acc ++ [(k, [r])]) key =
      bucketOf acc key ++ (if k == key then [r] else []) := by
  induction acc with
  | nil =>
    simp only [List.nil_append, bucketOf]
  | cons p acc ih =>
    have hpk : ¬p.1 = k := by
      intro hcontra
      simp [hcontra] at hany
    have hany2 : acc.any (fun p => p.1 == k) = false := by
      simpa [hpk] using hany
    simp only [List.cons_append, bucketOf]
    by_cases hpkey : p.1 = key
    · have hkk : ¬k = key := fun hcontra => hpk (by rw [hpkey, hcontra])
      rw [if_pos (by simpa using hpkey), if_pos (by simpa using hpkey),
        if_neg (by simpa using hkk)]
      simp
    · rw [if_neg (by simpa using hpkey), if_neg (by simpa using hpkey)]
      exact ih hany2

theorem bucketOf_bucketPush (acc : List (String × List Restaurant)) (k key : String)
    (r : Restaurant) :
    bucketOf (bucketPush acc k r) key =
      bucketOf acc key ++ (if k == key then [r] else []) := by
  unfold bucketPush
  by_cases hany : acc.any (fun p => p.1 == k) = true
  · rw [if_pos hany]
    by_cases hk : k = key
    · subst hk
      rw [if_pos (by simp)]
      simpa using bucketOf_map_eq acc k r hany
    · rw [if_neg (by simpa using hk)]
      simpa using bucketOf_map_ne acc k key r hk
  · rw [if_neg hany]
    have hany2 : acc.any (fun p => p.1 == k) = false := by
      cases hb : acc.any (fun p => p.1 == k) with
      | true => exact absurd hb hany
      | false => rfl
    exact bucketOf_append_new acc k key r hany2

theorem groupAux (key : String) : ∀ (rs : List Restaurant) (acc : List (String × List Restaurant)),
    bucketOf (rs.foldl (fun a r => bucketPush a (typeKey r) r) acc) key =
      bucketOf acc key ++ rs.filter (fun r => typeKey r == key)
  | [], acc => by simp
  | r :: rs, acc => by
    simp only [List.foldl_cons, List.filter_cons]
    rw [groupAux key rs (bucketPush acc (typeKey r) r), bucketOf_bucketPush]
    by_cases h : typeKey r = key <;> simp [h]

/-! ## Claim theorems -/

/-- C1 (corrected): `removeItem` is NOT a silent no-op when no cart line
has the requested id — `prev.find(...)` is `undefined` there and the
access `existingItem.quantity` throws, modelled as `none`; when a line
with the id exists (unique by the cart invariant), the line is removed
entirely when its quantity is 1 and its quantity is decremented by 1
otherwise. -/
theorem claim_C1_removeItem_amended (cart : List CartLine) (iid : String) :
    ((∀ l ∈ cart, ¬l.id = iid) → removeFromCart cart iid = none) ∧
    (∀ l0, (cart.map CartLine.id).Nodup → l0 ∈ cart → l0.id = iid →
      removeFromCart cart iid =
        some (if l0.quantity = 1 then cart.filter (fun c => !(c.id == iid))
              else cart.map (fun c =>
                if c.id == iid then { c with quantity := c.quantity - 1 } else c))) := by
  constructor
  · intro h
    have hf : cart.find? (fun l => l.id == iid) = none :=
      List.find?_eq_none.mpr (fun x hx => by simpa using h x hx)
    simp [removeFromCart, hf]
  · intro l0 hnd hmem hid
    cases hfind : cart.find? (fun l => l.id == iid) with
    | none =>
      exact absurd hid (by simpa using List.find?_eq_none.mp hfind l0 hmem)
    | some lf =>
      have hlfmem : lf ∈ cart := List.mem_of_find?_eq_some hfind
      have hlfid : lf.id = iid := by simpa using List.find?_some hfind
      have heq : lf = l0 :=
        List.inj_on_of_nodup_map hnd hlfmem hmem (by rw [hlfid, hid])
      subst heq
      simp only [removeFromCart, hfind]
      by_cases hq1 : lf.quantity = 1
      · rw [if_pos hq1, if_pos hq1]
      · rw [if_neg hq1, if_neg hq1]

theorem claim_C1_removeItem_witness :
    removeFromCart [⟨"m1", 10, some 200, 1⟩] "m1" = some [] ∧
    removeFromCart [⟨"m1", 10, some 200, 2⟩] "m1" = some [⟨"m1", 10, some 200, 1⟩] ∧
    removeFromCart [⟨"m1", 10, some 200, 1⟩] "zz" = none := by
  refine ⟨?_, ?_, ?_⟩
  · have h := (claim_C1_removeItem_amended [⟨"m1", 10, some 200, 1⟩] "m1").2
      ⟨"m1", 10, some 200, 1⟩ (by decide) (by decide) rfl
    exact h.trans (by decide)
  · have h := (claim_C1_removeItem_amended [⟨"m1", 10, some 200, 2⟩] "m1").2
      ⟨"m1", 10, some 200, 2⟩ (by decide) (by decide) rfl
    exact h.trans (by decide)
  · exact (claim_C1_removeItem_amended [⟨"m1", 10, some 200, 1⟩] "zz").1 (by decide)

/-- C1 counterexample: on the empty cart (no line has id "x"), the claim
says `removeItem` is a no-op leaving the cart unchanged (`some []`), but
the code throws (`none`). -/
theorem claim_C1_removeItem_counterexample :
    removeFromCart ([] : List CartLine) "x" = none ∧
    ¬removeFromCart ([] : List CartLine) "x" = some [] := by decide

/-- C7 (confirmed): every cart state reachable from the empty cart by
`addToCart` steps and non-throwing `removeFromCart` steps has pairwise
distinct line ids and every line quantity at least 1. -/
theorem claim_C7_cart_line_invariant (c : List CartLine) (h : CartReach c) :
    (c.map CartLine.id).Nodup ∧ ∀ l ∈ c, 1 ≤ l.quantity :=
  cartInvariantAux h

theorem claim_C7_cart_line_invariant_witness :
    ((addToCart (addToCart [] ⟨"m1", 10, some 200⟩) ⟨"m2", 5, none⟩).map CartLine.id).Nodup ∧
    ∀ l ∈ addToCart (addToCart [] ⟨"m1", 10, some 200⟩) ⟨"m2", 5, none⟩, 1 ≤ l.quantity :=
  claim_C7_cart_line_invariant _
    (CartReach.add _ ⟨"m2", 5, none⟩ (CartReach.add [] ⟨"m1", 10, some 200⟩ CartReach.empty))

/-- C6 (confirmed): on every reachable cart state the totals equal the
sums over current lines of price (resp. calories-or-0) times quantity —
they are derived, never cached — and they are non-negative whenever the
lines' prices and calories are. -/
theorem claim_C6_cart_totals (c : List CartLine) (h : CartReach c) :
    getTotalPrice c = (c.map (fun l => l.price * l.quantity)).sum ∧
    getTotalCalories c = (c.map (fun l => l.calories.getD 0 * l.quantity)).sum ∧
    ((∀ l ∈ c, 0 ≤ l.price) → 0 ≤ getTotalPrice c) ∧
    ((∀ l ∈ c, 0 ≤ l.calories.getD 0) → 0 ≤ getTotalCalories c) := by
  have hinv := cartInvariantAux h
  have hp : getTotalPrice c = (c.map (fun l => l.price * l.quantity)).sum := by
    unfold getTotalPrice
    rw [foldl_add_eq (fun l => l.price * l.quantity) c 0, zero_add]
  have hcal : getTotalCalories c = (c.map (fun l => l.calories.getD 0 * l.quantity)).sum := by
    unfold getTotalCalories
    rw [foldl_add_eq (fun l => l.calories.getD 0 * l.quantity) c 0, zero_add]
  refine ⟨hp, hcal, ?_, ?_⟩
  · intro hnn
    rw [hp]
    apply List.sum_nonneg
    intro x hx
    obtain ⟨l, hl, rfl⟩ := List.mem_map.mp hx
    have hq := hinv.2 l hl
    exact mul_nonneg (hnn l hl) (by omega)
  · intro hnn
    rw [hcal]
    apply List.sum_nonneg
    intro x hx
    obtain ⟨l, hl, rfl⟩ := List.mem_map.mp hx
    have hq := hinv.2 l hl
    exact mul_nonneg (hnn l hl) (by omega)

theorem claim_C6_cart_totals_witness :
    getTotalPrice (addToCart [] ⟨"m1", 10, some 200⟩) = 10 ∧
    0 ≤ getTotalPrice (addToCart [] ⟨"m1", 10, some 200⟩) := by
  have h := claim_C6_cart_totals (addToCart [] ⟨"m1", 10, some 200⟩)
    (CartReach.add [] ⟨"m1", 10, some 200⟩ CartReach.empty)
  refine ⟨?_, h.2.2.1 (by decide)⟩
  rw [h.1]
  decide

/-- C2 (corrected): each bucket of `groupRestaurantsByType` holds, in
input order, exactly the restaurants whose own key equals the bucket key,
where a restaurant's key is its `type` string when truthy and `"Other"`
only when the type is missing or empty — an unknown non-empty type gets
its own bucket, not `"Other"`. -/
theorem claim_C2_group_amended (rs : List Restaurant) (key : String) :
    bucketOf (groupRestaurantsByType rs) key = rs.filter (fun r => typeKey r == key) := by
  unfold groupRestaurantsByType
  simpa using groupAux key rs []

def pizzaRest : Restaurant := ⟨"Pizza Planet", some "Pizzeria"⟩

/-- C2 counterexample: "Pizzeria" is not one of the registry type names,
yet the restaurant is not placed in the "Other" bucket — it gets a
"Pizzeria" bucket of its own. -/
theorem claim_C2_group_counterexample :
    ((RESTAURANT_TYPES.map RestaurantType.name).contains "Pizzeria") = false ∧
    groupRestaurantsByType [pizzaRest] = [("Pizzeria", [pizzaRest])] ∧
    bucketOf (groupRestaurantsByType [pizzaRest]) "Other" = [] := by decide

/-- C10 (corrected): `searchRestaurantTypes` filters by the TRIMMED
lowercased query as a case-insensitive substring of name or description
(declared order preserved); an all-whitespace query returns the whole
11-entry table, and `search("fine")` returns exactly the Fine Dining
entry. -/
theorem claim_C10_search_amended :
    (∀ q : String, searchRestaurantTypes q =
      (if jsTrim q.toList = [] then RESTAURANT_TYPES
       else RESTAURANT_TYPES.filter (fun t =>
         containsSub (lowerStr (jsTrim q.toList)) (lowerStr t.name.toList) ||
         containsSub (lowerStr (jsTrim q.toList)) (lowerStr t.description.toList)))) ∧
    searchRestaurantTypes "" = RESTAURANT_TYPES ∧
    RESTAURANT_TYPES.length = 11 ∧
    searchRestaurantTypes "fine" =
      [⟨"Fine Dining", "#8E24AA", "Upscale restaurants with premium service"⟩] := by
  refine ⟨?_, by decide, by decide, by decide⟩
  intro q
  by_cases ht : jsTrim q.toList = []
  · rw [if_pos ht]
    have htd : jsTrim q.data = [] := ht
    simp only [searchRestaurantTypes]
    rw [if_pos (by simp [htd])]
  · rw [if_neg ht]
    have hq : ¬q = "" := by
      intro hcontra
      subst hcontra
      exact ht rfl
    have hcond : ¬(q == "" || jsTrim q.toList == []) = true := by
      intro hcontra
      rcases (Bool.or_eq_true _ _).mp hcontra with hc | hc
      · exact hq (by simpa using hc)
      · exact ht (by simpa using hc)
    simp only [searchRestaurantTypes]
    rw [if_neg hcond]
    rw [jsTrim_lowerStr q.toList]

/-- C10 counterexample: for the query " fine" (leading space) the code
returns the Fine Dining entry although no entry's name or description
contains " fine" as a case-insensitive substring, because the code
matches the trimmed query, not the query itself. -/
theorem claim_C10_search_counterexample :
    searchRestaurantTypes " fine" =
      [⟨"Fine Dining", "#8E24AA", "Upscale restaurants with premium service"⟩] ∧
    RESTAURANT_TYPES.filter (fun t => specSearchMatches " fine" t) = [] := by decide

/-- C3 (corrected): step 1 appends `name` as the first address part
exactly when it is truthy, contains NO '+' character at all — the code
tests `name.includes('+')`, not the plus-code pattern — and differs from
both `city` and `subregion`. -/
theorem claim_C3_name_filter_amended (a : GeocodeData) :
    ((truthy a.name && !((sval a.name).contains '+')
        && jsNeOpt a.name a.city && jsNeOpt a.name a.subregion) = true →
      (addressParts a).head? = some (sval a.name)) ∧
    ((truthy a.name && !((sval a.name).contains '+')
        && jsNeOpt a.name a.city && jsNeOpt a.name a.subregion) = false →
      addressParts a = step2 a ++ step3 a ++ step4 a ++ step5 a ++ step6 a ++ step7 a) := by
  constructor
  · intro h
    unfold addressParts step1
    rw [if_pos h]
    rfl
  · intro h
    unfold addressParts step1
    rw [if_neg (by rw [h]; simp)]
    simp

theorem claim_C3_name_filter_witness :
    (addressParts { name := some "Gulberg", city := some "Lahore" }).head? =
      some "Gulberg".toList ∧
    addressParts { name := some "A+B" } = [] := by
  constructor
  · exact (claim_C3_name_filter_amended
      { name := some "Gulberg", city := some "Lahore" }).1 (by decide)
  · have h := (claim_C3_name_filter_amended { name := some "A+B" }).2 (by decide)
    rw [h]
    decide

/-- C3 counterexample: the name "A+B" contains '+' but does NOT match the
plus-code pattern `[A-Z0-9]{4}\+[A-Z0-9]{2,}`, so per the claim it should
be appended; the code drops it (no parts, sentinel result). -/
theorem claim_C3_name_filter_counterexample :
    specPlusCodeTest "A+B".toList = false ∧
    truthy (some "A+B") = true ∧
    jsNeOpt (some "A+B") none = true ∧
    addressParts { name := some "A+B" } = [] ∧
    formatAddress { name := some "A+B" } = "Location detected" := by decide

/-- C9 (confirmed): the Lahore example normalizes to exactly
"Lahore, Punjab, Pakistan" (subregion equals city and is skipped; city,
region, country appended in that order). -/
theorem claim_C9_lahore_example :
    formatAddress { city := some "Lahore", subregion := some "Lahore",
                    region := some "Punjab", country := some "Pakistan" } =
      "Lahore, Punjab, Pakistan" := by decide

/-- The claim's "usable formattedAddress" for C5: present, non-empty, and
with a non-empty residue after the fallback cleaning. -/
def usableFormatted : Option String → Bool
  | none => false
  | some s => s != "" && !(cleanFallback s.toList == [])

/-- C5 (confirmed): `formatAddress` never returns the empty string, and
whenever steps 1–7 produce no parts and no usable `formattedAddress`
exists, it returns exactly the sentinel "Location detected". -/
theorem claim_C5_sentinel (a : GeocodeData) :
    ¬formatAddress a = "" ∧
    (addressParts a = [] → usableFormatted a.formattedAddress = false →
      formatAddress a = "Location detected") := by
  constructor
  · have hgen : ∀ l : List Char,
        ¬(if l = [] then "Location detected" else l.asString) = "" := by
      intro l
      by_cases hl : l = []
      · rw [if_pos hl]
        decide
      · rw [if_neg hl]
        exact asString_ne_empty hl
    simp only [formatAddress]
    exact hgen _
  · intro hparts husable
    cases hfa : a.formattedAddress with
    | none =>
      simp only [formatAddress, hparts, hfa]
      decide
    | some s =>
      rw [hfa] at husable
      by_cases hse : s = ""
      · subst hse
        simp only [formatAddress, hparts, hfa]
        decide
      · have hstr : (s != "") = true := by simpa using hse
        have hclean : cleanFallback s.data = [] := by
          by_cases hcf : cleanFallback s.toList = []
          · exact hcf
          · exfalso
            simp only [usableFormatted, hstr, Bool.true_and] at husable
            cases hb : cleanFallback s.toList == [] with
            | false => rw [hb] at husable; exact absurd husable (by decide)
            | true => exact hcf (by simpa using hb)
        simp only [formatAddress, hparts, hfa]
        simp [truthy, hse, sval, hclean, joinCommaSpace,
          show finalClean ([] : List Char) = [] from rfl]

theorem claim_C5_sentinel_witness :
    formatAddress {} = "Location detected" ∧ ¬formatAddress {} = "" := by
  have h := claim_C5_sentinel {}
  exact ⟨h.2 (by decide) (by decide), h.1⟩

/-- C8 (corrected): when steps 1–7 yield fewer than 3 parts, a truthy
`formattedAddress` exists and its fallback-cleaned form is strictly
longer than the joined parts, `formatAddress` returns the cleaned string
only after the unconditional final cleanup pass (a further comma
collapse and boundary strip, with the sentinel when empty) — not the
cleaned string itself. -/
theorem claim_C8_fallback_amended (a : GeocodeData)
    (h1 : (addressParts a).length < 3)
    (h2 : truthy a.formattedAddress = true)
    (h3 : (joinCommaSpace (addressParts a)).length <
      (cleanFallback (sval a.formattedAddress)).length) :
    formatAddress a =
      (if finalClean (cleanFallback (sval a.formattedAddress)) = [] then "Location detected"
       else (finalClean (cleanFallback (sval a.formattedAddress))).asString) := by
  have hcond : ((addressParts a).length < 3 && truthy a.formattedAddress) = true := by
    simp [h1, h2]
  simp only [formatAddress]
  rw [if_pos hcond, if_pos h3]

theorem claim_C8_fallback_witness :
    formatAddress { formattedAddress := some "Main Street, Lahore" } = "Main Street, Lahore" := by
  have h := claim_C8_fallback_amended { formattedAddress := some "Main Street, Lahore" }
    (by decide) (by decide) (by decide)
  rw [h]
  decide

/-- C8 counterexample: with only `formattedAddress = ",,,,,,,,a"`, the
fallback-cleaned string is ",,,a" and is preferred (longer than the empty
joined parts), but `formatAddress` returns ",a" — the final cleanup
changed the cleaned string, and the result is neither the cleaned string
nor the input "cleaned of boundary commas" (it still starts with a
comma). -/
theorem claim_C8_fallback_counterexample :
    (addressParts { formattedAddress := some ",,,,,,,,a" }).length < 3 ∧
    truthy (some ",,,,,,,,a") = true ∧
    (joinCommaSpace (addressParts { formattedAddress := some ",,,,,,,,a" })).length <
      (cleanFallback ",,,,,,,,a".toList).length ∧
    cleanFallback ",,,,,,,,a".toList = ",,,a".toList ∧
    formatAddress { formattedAddress := some ",,,,,,,,a" } = ",a" ∧
    ¬(",a" : String) = ",,,a" := by decide

/-- C4 (code bug): the location clause of `validateForm` rejects a draft
whose latitude is the in-range coordinate 0 (JS `!latitude` treats the
number 0 as missing), while accepting a nonzero in-range pair and
rejecting absent or out-of-range values. -/
theorem claim_C4_location_zero :
    locationCheck (some 0) (some 74) = false ∧
    locationCheck (some 31) (some 0) = false ∧
    ((-90 : Int) ≤ 0 ∧ (0 : Int) ≤ 90 ∧ (-180 : Int) ≤ 74 ∧ (74 : Int) ≤ 180) ∧
    locationCheck (some 31) (some 74) = true ∧
    locationCheck none (some 74) = false ∧
    locationCheck (some 31) none = false ∧
    locationCheck (some 91) (some 74) = false ∧
    locationCheck (some 31) (some 181) = false := by decide
